import Mathlib

/-!
Verification of the threaded-message / unread-tracking / caching / throttling
subsystem of the alx-backend-python chat repository, as a shallow embedding.

Sources embedded here:
- Django-signals_orm-0x04/messaging/views.py
  (get_threaded_replies, get_message_thread, reply_message,
   ConversationViewSet.get_queryset, ConversationViewSet.unread_counts,
   ConversationViewSet.mark_all_as_read)
- Django-Middleware-0x03/chats/middleware.py
  (RestrictAccessByTimeMiddleware, OffensiveLanguageMiddleware,
   RolepermissionMiddleware)

Django querysets are lazy: a queryset object stores a filter, and each
evaluation (including a count) re-runs that filter against the current
database state.  The embedding reproduces this where it matters
(mark_all_as_read evaluates its queryset count only after the bulk update).
The process-local Django cache is embedded as a partial map from string keys
to a value together with its absolute expiry instant.
-/

namespace Alx

/-- Message row, after messaging/models: primary key, conversation foreign
key, sender, receiver, read flag, creation timestamp, and the nullable
self-referencing parent_message foreign key.  Timestamps are rational so the
test scenario instant 1.5 is representable exactly. -/
structure Msg where
  id : Nat
  conversation : Nat
  sender : Nat
  receiver : Nat
  isRead : Bool
  timestamp : ℚ
  parent : Option Nat
deriving DecidableEq

/-- Conversation row: primary key, many-to-many participant set (as a list
of user ids), last-update instant used by the descending ordering in
get_queryset. -/
structure Conversation where
  id : Nat
  participants : List Nat
  updatedAt : Nat
deriving DecidableEq

/-! Middleware layer (Django-Middleware-0x03/chats/middleware.py). -/

/-- The authenticated-principal abstraction: is_authenticated plus an
optional role attribute; role none embeds a user object with no role
attribute (hasattr false). -/
structure Principal where
  isAuthenticated : Bool
  role : Option String
deriving DecidableEq

/-- The parts of a Django request the embedded middleware reads: HTTP
method, REMOTE_ADDR, path, and the attached user. -/
structure Request where
  method : String
  remoteAddr : String
  path : String
  user : Principal
deriving DecidableEq

/-- Outcome of one middleware __call__: either an HttpResponseForbidden with
its message body, or the request is passed on to get_response. -/
inductive MWResult where
  | forbidden (msg : String)
  | passed
deriving DecidableEq

/-- RestrictAccessByTimeMiddleware.__call__: reads only the hour component
of the current wall-clock time (datetime.now().hour) and rejects when
18 <= hour < 21; the request content and the minute component are ignored
by the source, so they are extra arguments here only to state that. -/
def restrictAccessByTimeMiddleware (_req : Request) (hour _minute : Nat) : MWResult :=
  if 18 ≤ hour ∧ hour < 21 then
    MWResult.forbidden
      "Access to messaging is restricted between 6 PM and 9 PM. Please try again later."
  else
    MWResult.passed

/-- Per-process throttle state of OffensiveLanguageMiddleware:
self.request_counts, a defaultdict(list) from client ip to the recorded
request timestamps.  Timestamps are integers here (the code holds POSIX
seconds as floats; only their ordering and differences matter). -/
structure ThrottleState where
  requestCounts : String → List Int

/-- The empty defaultdict the middleware starts from. -/
def throttleEmpty : ThrottleState := ⟨fun _ => []⟩

/-- Capacity self.limit = 5 of OffensiveLanguageMiddleware. -/
def offensiveLimit : Nat := 5

/-- Window self.window = 60 seconds of OffensiveLanguageMiddleware. -/
def offensiveWindow : Int := 60

/-- The purge step of OffensiveLanguageMiddleware.__call__: keep exactly the
timestamps t with now - t < window. -/
def purgedTimes (st : ThrottleState) (ip : String) (now : Int) : List Int :=
  (st.requestCounts ip).filter (fun t => decide (now - t < offensiveWindow))

/-- OffensiveLanguageMiddleware.__call__: only POST requests are examined;
the ip record is first purged (and the purged record is stored back even on
denial, matching the assignment before the limit check), then the request is
denied when the purged record already has limit entries, else now is
appended and the request passes. -/
def offensiveLanguageMiddleware (st : ThrottleState) (req : Request) (now : Int) :
    MWResult × ThrottleState :=
  if req.method = "POST" then
    let ip := req.remoteAddr
    let purged := purgedTimes st ip now
    if offensiveLimit ≤ purged.length then
      (MWResult.forbidden "Message limit exceeded (5 per minute). Please wait.",
       ⟨fun k => if k = ip then purged else st.requestCounts k⟩)
    else
      (MWResult.passed,
       ⟨fun k => if k = ip then purged ++ [now] else st.requestCounts k⟩)
  else
    (MWResult.passed, st)

/-- Run a sequence of calls through the throttle, collecting each decision
and threading the state. -/
def throttleRun (st : ThrottleState) (req : Request) (times : List Int) :
    List MWResult × ThrottleState :=
  times.foldl
    (fun acc t =>
      let r := offensiveLanguageMiddleware acc.2 req t
      (acc.1 ++ [r.1], r.2))
    ([], st)

/-- Fold a list of (request, instant) calls through the throttle keeping
only the final state. -/
def applyThrottleCalls (st : ThrottleState) (calls : List (Request × Int)) : ThrottleState :=
  calls.foldl (fun s p => (offensiveLanguageMiddleware s p.1 p.2).2) st

/-- The protected path list of RolepermissionMiddleware. -/
def protectedPaths : List String := ["/admin/", "/moderate/", "/api/chat/delete/"]

/-- RolepermissionMiddleware.__call__: on a path starting with a protected
entry, reject unauthenticated users, then users without a role attribute,
then roles outside admin/moderator, each with its own message; every other
path passes unconditionally. -/
def rolepermissionMiddleware (req : Request) : MWResult :=
  if protectedPaths.any (fun p => req.path.startsWith p) then
    if req.user.isAuthenticated = false then
      MWResult.forbidden "Authentication required"
    else
      match req.user.role with
      | none => MWResult.forbidden "User role not defined"
      | some r =>
          if r = "admin" ∨ r = "moderator" then
            MWResult.passed
          else
            MWResult.forbidden "Admin or moderator privileges required"
  else
    MWResult.passed

/-- Denial reasons named by the specification for the role gate. -/
inductive GateReason where
  | unauthenticated
  | noRole
  | insufficientRole
deriving DecidableEq

/-- Specification-side decision of the role gate. -/
inductive GateDecision where
  | allowed
  | denied (r : GateReason)
deriving DecidableEq

/-- Modelled from the spec wording of the role gate, for the refinement
comparison with the source middleware: protected-path requests fail as
unauthenticated, no-role, or insufficient-role, in that order of checks;
non-matching paths always pass. -/
def roleGateSpec (req : Request) : GateDecision :=
  if protectedPaths.any (fun p => req.path.startsWith p) then
    if req.user.isAuthenticated = false then
      GateDecision.denied GateReason.unauthenticated
    else
      match req.user.role with
      | none => GateDecision.denied GateReason.noRole
      | some r =>
          if r = "admin" ∨ r = "moderator" then
            GateDecision.allowed
          else
            GateDecision.denied GateReason.insufficientRole
  else
    GateDecision.allowed

/-! Store plus cache system (Django-signals_orm-0x04/messaging/views.py,
ConversationViewSet and the function-based views). -/

/-- Values held by the process-local Django cache: the unread-count payload
of unread_counts (conversation id to count) or the conversation-list payload
of get_queryset (conversation ids, most recently updated first). -/
inductive CacheVal where
  | counts (data : List (Nat × Nat))
  | convList (data : List Nat)
deriving DecidableEq

/-- System state: the relational store (messages and conversations) plus the
cache, a map from string key to value and absolute expiry instant. -/
structure Sys where
  messages : List Msg
  conversations : List Conversation
  cache : String → Option (CacheVal × Nat)

/-- cache.get(key) at instant now: a hit only while now is before the
expiry recorded at set time. -/
def cacheGet (sys : Sys) (now : Nat) (key : String) : Option CacheVal :=
  match sys.cache key with
  | some (v, expiry) => if now < expiry then some v else none
  | none => none

/-- cache.set(key, value, ttl) at instant now. -/
def cacheSet (c : String → Option (CacheVal × Nat)) (key : String) (v : CacheVal)
    (ttl now : Nat) : String → Option (CacheVal × Nat) :=
  fun k => if k = key then some (v, now + ttl) else c k

/-- cache.delete(key). -/
def cacheDelete (c : String → Option (CacheVal × Nat)) (key : String) :
    String → Option (CacheVal × Nat) :=
  fun k => if k = key then none else c k

/-- Cache key f-string user_{id}_conversations used by get_queryset. -/
def conversationsKey (u : Nat) : String := "user_" ++ toString u ++ "_conversations"

/-- Cache key f-string user_{id}_unread_counts used by unread_counts. -/
def unreadCountsKey (u : Nat) : String := "user_" ++ toString u ++ "_unread_counts"

/-- Cache key f-string user_{id}_unread_messages deleted by
mark_all_as_read. -/
def unreadMessagesKey (u : Nat) : String := "user_" ++ toString u ++ "_unread_messages"

/-- The queryset predicate of mark_all_as_read and of the unread_count
annotation: messages of conversation c addressed to u and still unread. -/
def isUnreadFor (u c : Nat) (m : Msg) : Bool :=
  decide (m.conversation = c ∧ m.receiver = u ∧ m.isRead = false)

/-- The aggregate computed by the cold path of unread_counts: for each
conversation the requesting user participates in, the count of its messages
with receiver = user and is_read = False. -/
def computeUnreadCounts (msgs : List Msg) (convs : List Conversation) (u : Nat) :
    List (Nat × Nat) :=
  (convs.filter (fun cv => decide (u ∈ cv.participants))).map
    (fun cv => (cv.id, (msgs.filter (isUnreadFor u cv.id)).length))

/-- Descending updated_at comparison used by order_by of get_queryset. -/
def convGE (a b : Conversation) : Prop := b.updatedAt ≤ a.updatedAt

instance : DecidableRel convGE :=
  fun a b => inferInstanceAs (Decidable (b.updatedAt ≤ a.updatedAt))

/-- The aggregate computed by the cold path of get_queryset: ids of the
conversations the user participates in, ordered by updated_at descending. -/
def computeConversationList (convs : List Conversation) (u : Nat) : List Nat :=
  (List.insertionSort convGE (convs.filter (fun cv => decide (u ∈ cv.participants)))).map
    (fun cv => cv.id)

/-- ConversationViewSet.unread_counts (the view body, lines 173-201): read
the per-user cache key; on a hit return the cached mapping, otherwise
compute it from the store and cache it for 60 seconds. -/
def unread_counts (sys : Sys) (u : Nat) (now : Nat) : List (Nat × Nat) × Sys :=
  match cacheGet sys now (unreadCountsKey u) with
  | some (CacheVal.counts data) => (data, sys)
  | _ =>
      let data := computeUnreadCounts sys.messages sys.conversations u
      (data, { sys with cache := cacheSet sys.cache (unreadCountsKey u) (CacheVal.counts data) 60 now })

/-- ConversationViewSet.get_queryset (lines 135-159): read the per-user
conversation-list key; on a hit return the cached list, otherwise compute
the participant-filtered, recency-ordered conversation list and cache it
for 60 seconds. -/
def get_queryset (sys : Sys) (u : Nat) (now : Nat) : List Nat × Sys :=
  match cacheGet sys now (conversationsKey u) with
  | some (CacheVal.convList data) => (data, sys)
  | _ =>
      let data := computeConversationList sys.conversations u
      (data, { sys with cache := cacheSet sys.cache (conversationsKey u) (CacheVal.convList data) 60 now })

/-- Effect of the bulk unread_messages.update(is_read=True) on one row:
rows matched by the queryset get the read flag set, all others are kept. -/
def markReadUpdate (u c : Nat) (m : Msg) : Msg :=
  if m.conversation = c ∧ m.receiver = u ∧ m.isRead = false then
    { m with isRead := true }
  else
    m

/-- ConversationViewSet.mark_all_as_read (lines 203-223): bulk-update the
unread messages of the conversation addressed to the requesting user, delete
the three per-user cache keys, and report a count.  The reported number is
the count of the same lazy queryset, re-evaluated against the store only
after the update (Django querysets cache nothing across update and count),
which is what the source f-string does. -/
def mark_all_as_read (sys : Sys) (u c : Nat) : Nat × Sys :=
  let updated := sys.messages.map (markReadUpdate u c)
  let reported := (updated.filter (isUnreadFor u c)).length
  let cache1 :=
    cacheDelete (cacheDelete (cacheDelete sys.cache (unreadMessagesKey u))
      (unreadCountsKey u)) (conversationsKey u)
  (reported, { sys with messages := updated, cache := cache1 })

/-- reply_message (lines 54-64): create a reply with sender = the requesting
user, receiver copied from the parent message, parent_message = parent, and
no cache operation at all.  The new primary key and creation instant are
arguments (the database assigns them); the conversation is the parent
conversation, per the data-model invariant that a reply belongs to the
conversation of its parent. -/
def reply_message (sys : Sys) (senderU parentId newId : Nat) (ts : ℚ) : Sys :=
  match sys.messages.find? (fun m => decide (m.id = parentId)) with
  | none => sys
  | some parent =>
      { sys with messages := sys.messages ++
          [{ id := newId, conversation := parent.conversation, sender := senderU,
             receiver := parent.receiver, isRead := false, timestamp := ts,
             parent := some parentId }] }

/-- Modelled from the spec: unread_for(user, conversation) comes from the
custom manager Message.unread (managers.py is not under src, only its
callers are).  Spec wording: the messages addressed to the user in the
conversation with read flag false, ordered by creation timestamp
ascending. -/
def unread_for (sys : Sys) (u c : Nat) : List Msg :=
  List.insertionSort (fun a b => a.timestamp ≤ b.timestamp)
    (sys.messages.filter (isUnreadFor u c))

/-! Thread resolver (views.py get_threaded_replies, lines 109-127; the inner
recurse appends (message, depth) and recurses into the replies of the node,
fetched by Message.objects.filter(parent_message=message) ordered by
ascending timestamp). -/

/-- Ascending timestamp comparison used by order_by of the reply fetch. -/
def msgLE (a b : Msg) : Prop := a.timestamp ≤ b.timestamp

instance : DecidableRel msgLE :=
  fun a b => inferInstanceAs (Decidable (a.timestamp ≤ b.timestamp))

instance : IsTotal Msg msgLE := ⟨fun a b => le_total a.timestamp b.timestamp⟩

instance : IsTrans Msg msgLE := ⟨fun _ _ _ h1 h2 => le_trans h1 h2⟩

/-- The reply fetch of one node: Message.objects.filter(parent_message=m)
order_by timestamp, over the whole message table. -/
def childrenOf (store : List Msg) (mid : Nat) : List Msg :=
  List.insertionSort msgLE (store.filter (fun m => decide (m.parent = some mid)))

/-- Largest message id in the store (0 when empty). -/
def maxMsgId (store : List Msg) : Nat :=
  store.foldr (fun m acc => max m.id acc) 0

/-- The inner recurse of get_threaded_replies.  The Python recursion is
unbounded; here it carries explicit fuel, consumed once per visited node
along a root-to-leaf path.  Under the data-model invariant that a parent
precedes its replies (parent id below child id) the fuel maxMsgId + 1 is
proven sufficient, and exhausted fuel is exactly how a parent-pointer cycle
manifests: the source recursion would never return. -/
def recurseThread (store : List Msg) : Nat → Msg → Nat → List (Msg × Nat)
  | 0, _, _ => []
  | fuel + 1, m, depth =>
      (m, depth) ::
        (childrenOf store m.id).flatMap (fun c => recurseThread store fuel c (depth + 1))

/-- get_threaded_replies(root_message): the full pre-order traversal with
depth annotations, run with sufficient fuel for any store satisfying the
parent-precedes-child invariant. -/
def get_threaded_replies (store : List Msg) (root : Msg) : List (Msg × Nat) :=
  recurseThread store (maxMsgId store + 1) root 0

/-- Reflexive-transitive closure of the reply relation the resolver walks:
the messages reachable from m by following child links. -/
inductive ThreadDesc (store : List Msg) : Msg → Msg → Prop where
  | refl (m : Msg) : ThreadDesc store m m
  | step {m c x : Msg} (hc : c ∈ childrenOf store m.id) (h : ThreadDesc store c x) :
      ThreadDesc store m x

/-- Boolean form of the parent-precedes-child store invariant, for concrete
witnesses. -/
def parentsPrecedeB (store : List Msg) : Bool :=
  store.all (fun m => match m.parent with
    | some p => decide (p < m.id)
    | none => true)

/-! Concrete inputs used by the scenario conjuncts, witnesses and
counterexamples. -/

/-- Root message R of the C2 scenario (conversation 1, sender 20 to
receiver 10, created at instant 0). -/
def exR : Msg := ⟨1, 1, 20, 10, false, 0, none⟩

/-- Reply A to R, created at instant 1. -/
def exA : Msg := ⟨2, 1, 10, 20, false, 1, some 1⟩

/-- Reply C to A, created at instant 3/2. -/
def exC : Msg := ⟨3, 1, 20, 10, false, Rat.mk' 3 2, some 2⟩

/-- Reply B to R, created at instant 2. -/
def exB : Msg := ⟨4, 1, 10, 20, false, 2, some 1⟩

/-- The message table of the C2 scenario. -/
def exStore : List Msg := [exR, exA, exB, exC]

/-- First half of a corrupted two-cycle: message 1 has message 2 as
parent. -/
def cycM1 : Msg := ⟨1, 1, 20, 10, false, 0, some 2⟩

/-- Second half of the corrupted two-cycle: message 2 has message 1 as
parent. -/
def cycM2 : Msg := ⟨2, 1, 10, 20, false, 0, some 1⟩

/-- A message table corrupted to contain a parent-pointer cycle. -/
def cycStore : List Msg := [cycM1, cycM2]

/-- A POST request from client ip 1.1.1.1 by an authenticated member. -/
def postReqA : Request := ⟨"POST", "1.1.1.1", "/api/chat/send/", ⟨true, some "member"⟩⟩

/-- A POST request from the distinct client ip 2.2.2.2. -/
def postReqB : Request := ⟨"POST", "2.2.2.2", "/api/chat/send/", ⟨true, some "member"⟩⟩

/-- A GET request from client ip 1.1.1.1. -/
def getReqA : Request := ⟨"GET", "1.1.1.1", "/api/chat/list/", ⟨true, some "member"⟩⟩

/-- System with one conversation (id 1, participants 10 and 20) holding one
unread message addressed to user 10, and an empty cache: the C1 failing
input. -/
def sysC1 : Sys :=
  { messages := [⟨100, 1, 20, 10, false, 0, none⟩],
    conversations := [⟨1, [10, 20], 5⟩],
    cache := fun _ => none }

/-- System for the C5 counterexample: the same conversation, one already
read message (the future reply parent), empty cache. -/
def sysC5 : Sys :=
  { messages := [⟨100, 1, 20, 10, true, 0, none⟩],
    conversations := [⟨1, [10, 20], 5⟩],
    cache := fun _ => none }

/-- C5 counterexample run, step 1: user 10 reads unread_counts at instant 0,
which caches the computed counts for 60 seconds. -/
def sysC5a : Sys := (unread_counts sysC5 10 0).2

/-- C5 counterexample run, step 2: user 20 replies to message 100 at
instant 1, creating a new unread message addressed to user 10; the source
view performs no cache invalidation. -/
def sysC5b : Sys := reply_message sysC5a 20 100 101 1

/-! Theorems.  Claim-level theorems are named by claim id; the lemmas above
them are shared infrastructure. -/

/-- C7: the access window guard is a pure function of the current time over
the half-open interval [18, 21): the decision is identical for any two
requests at the same instant and does not depend on the minute component
beyond the hour, a request is passed exactly when the hour is outside
18 <= hour < 21, 19:30 is restricted, and exactly 21:00 is not. -/
theorem c7_restricted_window (req1 req2 : Request) (hour minute1 minute2 : Nat) :
    restrictAccessByTimeMiddleware req1 hour minute1 =
      restrictAccessByTimeMiddleware req2 hour minute2
    ∧ (restrictAccessByTimeMiddleware req1 hour minute1 = MWResult.passed ↔
        ¬(18 ≤ hour ∧ hour < 21))
    ∧ restrictAccessByTimeMiddleware req1 19 30 =
        MWResult.forbidden
          "Access to messaging is restricted between 6 PM and 9 PM. Please try again later."
    ∧ restrictAccessByTimeMiddleware req1 21 0 = MWResult.passed := by
  refine ⟨rfl, ?_, rfl, rfl⟩
  unfold restrictAccessByTimeMiddleware
  by_cases h : 18 ≤ hour ∧ hour < 21 <;> simp [h]

/-- C8: the role gate refines the spec decision procedure exactly: requests
on paths matching no protected entry always pass; on protected paths an
unauthenticated principal, a principal without a role attribute, and a
principal whose role is outside the admin/moderator set are denied with
three pairwise distinct messages corresponding to the unauthenticated,
no-role and insufficient-role reasons, while admin and moderator roles are
allowed. -/
theorem c8_role_gate_refinement (req : Request) :
    (rolepermissionMiddleware req = MWResult.passed ↔ roleGateSpec req = GateDecision.allowed)
    ∧ (rolepermissionMiddleware req = MWResult.forbidden "Authentication required" ↔
        roleGateSpec req = GateDecision.denied GateReason.unauthenticated)
    ∧ (rolepermissionMiddleware req = MWResult.forbidden "User role not defined" ↔
        roleGateSpec req = GateDecision.denied GateReason.noRole)
    ∧ (rolepermissionMiddleware req = MWResult.forbidden "Admin or moderator privileges required" ↔
        roleGateSpec req = GateDecision.denied GateReason.insufficientRole)
    ∧ ("Authentication required" ≠ "User role not defined"
        ∧ "Authentication required" ≠ "Admin or moderator privileges required"
        ∧ "User role not defined" ≠ "Admin or moderator privileges required") := by
  unfold rolepermissionMiddleware roleGateSpec
  refine ⟨?_, ?_, ?_, ?_, by decide, by decide, by decide⟩ <;>
    rcases req with ⟨method, addr, path, auth, role⟩ <;>
    rcases auth <;>
    rcases role with _ | r <;>
    by_cases hp : protectedPaths.any (fun p => path.startsWith p) <;>
    simp [hp] <;>
    by_cases hr : r = "admin" ∨ r = "moderator" <;>
    simp [hr]

/-- C9: the throttle only examines POST requests: any request whose method
is not POST is passed through with the whole throttle state unchanged (no
identity record is read, purged or appended to). -/
theorem c9_non_post_passthrough (st : ThrottleState) (req : Request) (now : Int)
    (h : req.method ≠ "POST") :
    offensiveLanguageMiddleware st req now = (MWResult.passed, st) := by
  unfold offensiveLanguageMiddleware
  simp [h]

/-- Witness for C9 at a concrete GET request. -/
theorem c9_witness :
    offensiveLanguageMiddleware throttleEmpty getReqA 0 = (MWResult.passed, throttleEmpty) :=
  c9_non_post_passthrough throttleEmpty getReqA 0 (by decide)

/-- C4: one throttle step first purges the identity record down to the
timestamps inside the trailing window, admits exactly when the purged record
is below capacity 5, records now exactly on admission, and keeps the purged
record on denial; consequently five POSTs at instants 0,2,4,6,8 (within 10
time units) all pass, a sixth at instant 10 is denied, and a call at
instant 70, after the window has fully elapsed, passes again.  A timestamp
is inside the window exactly when now - t < 60, so the purge drops exactly
the timestamps aged 60 or more. -/
theorem c4_throttle_sliding_window (st : ThrottleState) (req : Request) (now : Int)
    (h : req.method = "POST") :
    ((offensiveLanguageMiddleware st req now).1 = MWResult.passed ↔
       (purgedTimes st req.remoteAddr now).length < offensiveLimit)
    ∧ ((offensiveLanguageMiddleware st req now).2.requestCounts req.remoteAddr =
        if (purgedTimes st req.remoteAddr now).length < offensiveLimit then
          purgedTimes st req.remoteAddr now ++ [now]
        else purgedTimes st req.remoteAddr now)
    ∧ (∀ t ∈ purgedTimes st req.remoteAddr now,
         t ∈ st.requestCounts req.remoteAddr ∧ now - t < offensiveWindow)
    ∧ (∀ t ∈ st.requestCounts req.remoteAddr,
         now - t < offensiveWindow → t ∈ purgedTimes st req.remoteAddr now)
    ∧ (throttleRun throttleEmpty postReqA [0, 2, 4, 6, 8]).1 =
        [MWResult.passed, MWResult.passed, MWResult.passed, MWResult.passed, MWResult.passed]
    ∧ (offensiveLanguageMiddleware
         (throttleRun throttleEmpty postReqA [0, 2, 4, 6, 8]).2 postReqA 10).1 =
        MWResult.forbidden "Message limit exceeded (5 per minute). Please wait."
    ∧ (offensiveLanguageMiddleware
         (offensiveLanguageMiddleware
           (throttleRun throttleEmpty postReqA [0, 2, 4, 6, 8]).2 postReqA 10).2
         postReqA 70).1 = MWResult.passed := by
  refine ⟨?_, ?_, ?_, ?_, by decide, by decide, by decide⟩
  · unfold offensiveLanguageMiddleware
    by_cases hl : offensiveLimit ≤ (purgedTimes st req.remoteAddr now).length
    · simp [h, hl, Nat.not_lt.mpr hl]
    · simp [h, hl, Nat.not_le.mp hl]
  · unfold offensiveLanguageMiddleware
    by_cases hl : offensiveLimit ≤ (purgedTimes st req.remoteAddr now).length
    · simp [h, hl, Nat.not_lt.mpr hl]
    · simp [h, hl, Nat.not_le.mp hl]
  · intro t ht
    simpa [purgedTimes, List.mem_filter] using ht
  · intro t ht hw
    simp [purgedTimes, List.mem_filter, ht, hw]

/-- Witness for C4: on the empty state a first POST is admitted. -/
theorem c4_witness :
    (offensiveLanguageMiddleware throttleEmpty postReqA 0).1 = MWResult.passed :=
  (c4_throttle_sliding_window throttleEmpty postReqA 0 rfl).1.mpr (by decide)

/-- One throttle step never touches the record of a different identity. -/
theorem throttle_step_frame (st : ThrottleState) (r : Request) (t : Int) (ip : String)
    (h : r.remoteAddr ≠ ip) :
    (offensiveLanguageMiddleware st r t).2.requestCounts ip = st.requestCounts ip := by
  have h2 : ¬(ip = r.remoteAddr) := fun e => h e.symm
  unfold offensiveLanguageMiddleware
  by_cases hm : r.method = "POST" <;>
    [skip; simp [hm]]
  by_cases hl : offensiveLimit ≤ (purgedTimes st r.remoteAddr t).length <;>
    simp [hm, hl, h2]

/-- Folding any sequence of calls from other identities leaves a given
identity record untouched. -/
theorem throttle_fold_frame (calls : List (Request × Int)) (st : ThrottleState) (ip : String)
    (h : ∀ p ∈ calls, p.1.remoteAddr ≠ ip) :
    (applyThrottleCalls st calls).requestCounts ip = st.requestCounts ip := by
  induction calls generalizing st with
  | nil => rfl
  | cons p rest ih =>
      have hstep := throttle_step_frame st p.1 p.2 ip (h p (List.mem_cons_self p rest))
      have hrest := ih (offensiveLanguageMiddleware st p.1 p.2).2
        (fun q hq => h q (List.mem_cons_of_mem p hq))
      calc (applyThrottleCalls st (p :: rest)).requestCounts ip
          = (applyThrottleCalls (offensiveLanguageMiddleware st p.1 p.2).2 rest).requestCounts ip := rfl
        _ = (offensiveLanguageMiddleware st p.1 p.2).2.requestCounts ip := hrest
        _ = st.requestCounts ip := hstep

/-- The throttle decision for a request reads only the record of its own
identity. -/
theorem throttle_decision_local (s1 s2 : ThrottleState) (r : Request) (t : Int)
    (h : s1.requestCounts r.remoteAddr = s2.requestCounts r.remoteAddr) :
    (offensiveLanguageMiddleware s1 r t).1 = (offensiveLanguageMiddleware s2 r t).1 := by
  have hp : purgedTimes s1 r.remoteAddr t = purgedTimes s2 r.remoteAddr t := by
    unfold purgedTimes; rw [h]
  unfold offensiveLanguageMiddleware
  by_cases hm : r.method = "POST" <;> simp [hm, hp]
  by_cases hl : offensiveLimit ≤ (purgedTimes s2 r.remoteAddr t).length <;> simp [hl]

/-- C10: throttle decisions are independent across distinct client
identities: after any sequence of prior calls whose identities all differ
from that of request A, the decision for A is the same as with none of
them, and the record of the identity of A is unchanged by them. -/
theorem c10_throttle_identity_independence (st : ThrottleState)
    (calls : List (Request × Int)) (reqA : Request) (now : Int)
    (h : ∀ p ∈ calls, p.1.remoteAddr ≠ reqA.remoteAddr) :
    (offensiveLanguageMiddleware (applyThrottleCalls st calls) reqA now).1 =
      (offensiveLanguageMiddleware st reqA now).1
    ∧ (applyThrottleCalls st calls).requestCounts reqA.remoteAddr =
      st.requestCounts reqA.remoteAddr := by
  have hframe := throttle_fold_frame calls st reqA.remoteAddr h
  exact ⟨throttle_decision_local _ _ reqA now hframe, hframe⟩

/-- Witness for C10: a prior recorded POST from the identity 2.2.2.2 does
not change the decision for the identity 1.1.1.1. -/
theorem c10_witness :
    (offensiveLanguageMiddleware (applyThrottleCalls throttleEmpty [(postReqB, 0)])
        postReqA 5).1 =
      (offensiveLanguageMiddleware throttleEmpty postReqA 5).1 :=
  (c10_throttle_identity_independence throttleEmpty [(postReqB, 0)] postReqA 5 (by decide)).1

/-- C1: evaluated at the failing input (one unread message addressed to
user 10 in conversation 1), mark_all_as_read does flip that message, yet
reports 0 marked as read: the lazy queryset count is re-evaluated after the
bulk update, so the endpoint never reports the number transitioned. -/
theorem c1_mark_all_as_read_reports_zero :
    (sysC1.messages.filter (isUnreadFor 10 1)).length = 1
    ∧ (mark_all_as_read sysC1 10 1).1 = 0
    ∧ ((mark_all_as_read sysC1 10 1).2.messages.filter (isUnreadFor 10 1)).length = 0 := by
  decide

/-- A row already updated by markReadUpdate is never matched again by the
unread queryset predicate. -/
theorem isUnreadFor_markReadUpdate (u c : Nat) (m : Msg) :
    isUnreadFor u c (markReadUpdate u c m) = false := by
  by_cases hm : m.conversation = c ∧ m.receiver = u ∧ m.isRead = false <;>
    simp [markReadUpdate, isUnreadFor, hm]

/-- markReadUpdate is idempotent on rows. -/
theorem markReadUpdate_idem (u c : Nat) (m : Msg) :
    markReadUpdate u c (markReadUpdate u c m) = markReadUpdate u c m := by
  by_cases hm : m.conversation = c ∧ m.receiver = u ∧ m.isRead = false <;>
    simp [markReadUpdate, hm]

/-- After the bulk update, the unread filter over the updated rows is
empty. -/
theorem filter_unread_after_update (u c : Nat) (l : List Msg) :
    (l.map (markReadUpdate u c)).filter (isUnreadFor u c) = [] := by
  rw [List.filter_eq_nil_iff]
  intro a ha
  rcases List.mem_map.mp ha with ⟨b, _, rfl⟩
  simp [isUnreadFor_markReadUpdate]

/-- C6: after mark_all_as_read(u, c), unread_for(u, c) is the empty
sequence, and a second mark_all_as_read with no intervening new message
reports 0 and changes no message row (idempotence). -/
theorem c6_mark_read_then_unread_empty (sys : Sys) (u c : Nat) :
    unread_for (mark_all_as_read sys u c).2 u c = []
    ∧ (mark_all_as_read (mark_all_as_read sys u c).2 u c).1 = 0
    ∧ (mark_all_as_read (mark_all_as_read sys u c).2 u c).2.messages =
        (mark_all_as_read sys u c).2.messages := by
  refine ⟨?_, ?_, ?_⟩
  · show List.insertionSort _
      (((sys.messages.map (markReadUpdate u c)).filter (isUnreadFor u c))) = []
    rw [filter_unread_after_update]
    rfl
  · show ((((sys.messages.map (markReadUpdate u c)).map (markReadUpdate u c))).filter
      (isUnreadFor u c)).length = 0
    rw [List.map_map]
    have : (sys.messages.map (markReadUpdate u c ∘ markReadUpdate u c)).filter
        (isUnreadFor u c) = [] := by
      rw [List.filter_eq_nil_iff]
      intro a ha
      rcases List.mem_map.mp ha with ⟨b, _, rfl⟩
      simp [Function.comp, isUnreadFor_markReadUpdate]
    rw [this]
    rfl
  · show ((sys.messages.map (markReadUpdate u c)).map (markReadUpdate u c)) =
      sys.messages.map (markReadUpdate u c)
    rw [List.map_map]
    simp [Function.comp, markReadUpdate_idem]

/-- C5 counterexample: user 10 reads unread counts at instant 0 (counts
cached as conversation 1 having 0 unread); user 20 then replies to message
100 at instant 1, creating a new unread message addressed to user 10, and
the source reply view invalidates nothing; the next unread-count read at
instant 10 returns the pre-write cached value even though the recomputed
value differs and the sixty-second TTL set at instant 0 has not elapsed. -/
theorem c5_reply_serves_stale_counts :
    (unread_counts sysC5b 10 10).1 = [(1, 0)]
    ∧ computeUnreadCounts sysC5b.messages sysC5b.conversations 10 = [(1, 1)]
    ∧ sysC5b.cache (unreadCountsKey 10) = some (CacheVal.counts [(1, 0)], 60) := by
  decide

/-- C5 amended: the mark-read mutation deletes the three cache keys of the
requesting user before returning, so the next key-level unread-count read
and conversation-list read for that user recompute from the store instead
of returning any pre-write cached value. -/
theorem c5_mark_read_invalidates_requesting_user_keys (sys : Sys) (u c now : Nat) :
    (mark_all_as_read sys u c).2.cache (unreadCountsKey u) = none
    ∧ (mark_all_as_read sys u c).2.cache (conversationsKey u) = none
    ∧ (mark_all_as_read sys u c).2.cache (unreadMessagesKey u) = none
    ∧ (unread_counts (mark_all_as_read sys u c).2 u now).1 =
        computeUnreadCounts (mark_all_as_read sys u c).2.messages
          (mark_all_as_read sys u c).2.conversations u
    ∧ (get_queryset (mark_all_as_read sys u c).2 u now).1 =
        computeConversationList (mark_all_as_read sys u c).2.conversations u := by
  have h1 : (mark_all_as_read sys u c).2.cache (unreadCountsKey u) = none := by
    show cacheDelete (cacheDelete (cacheDelete sys.cache (unreadMessagesKey u))
      (unreadCountsKey u)) (conversationsKey u) (unreadCountsKey u) = none
    unfold cacheDelete
    split
    · rfl
    · simp
  have h2 : (mark_all_as_read sys u c).2.cache (conversationsKey u) = none := by
    show cacheDelete (cacheDelete (cacheDelete sys.cache (unreadMessagesKey u))
      (unreadCountsKey u)) (conversationsKey u) (conversationsKey u) = none
    unfold cacheDelete
    simp
  have h3 : (mark_all_as_read sys u c).2.cache (unreadMessagesKey u) = none := by
    show cacheDelete (cacheDelete (cacheDelete sys.cache (unreadMessagesKey u))
      (unreadCountsKey u)) (conversationsKey u) (unreadMessagesKey u) = none
    unfold cacheDelete
    split
    · rfl
    · split
      · rfl
      · simp
  refine ⟨h1, h2, h3, ?_, ?_⟩
  · unfold unread_counts cacheGet
    rw [h1]
  · unfold get_queryset cacheGet
    rw [h2]

/-! Thread-resolver lemmas. -/

/-- One unfolding step of the traversal. -/
theorem recurseThread_succ (store : List Msg) (f : Nat) (m : Msg) (d : Nat) :
    recurseThread store (f + 1) m d =
      (m, d) ::
        (childrenOf store m.id).flatMap (fun c => recurseThread store f c (d + 1)) := rfl

/-- Every store member id is bounded by maxMsgId. -/
theorem mem_maxMsgId (store : List Msg) (m : Msg) (hm : m ∈ store) :
    m.id ≤ maxMsgId store := by
  induction store with
  | nil => cases hm
  | cons a l ih =>
      rcases List.mem_cons.mp hm with rfl | h
      · exact le_max_left _ _
      · exact le_trans (ih h) (le_max_right _ _)

/-- Membership in a reply fetch is membership in the store with the right
parent pointer. -/
theorem mem_childrenOf (store : List Msg) (mid : Nat) (c : Msg) :
    c ∈ childrenOf store mid ↔ c ∈ store ∧ c.parent = some mid := by
  unfold childrenOf
  rw [List.Perm.mem_iff (List.perm_insertionSort msgLE _)]
  simp [List.mem_filter]

/-- The reply fetch of a node has pairwise distinct ids whenever the store
does. -/
theorem childrenOf_nodup (store : List Msg)
    (Hnodup : (store.map Msg.id).Nodup) (mid : Nat) :
    ((childrenOf store mid).map Msg.id).Nodup := by
  unfold childrenOf
  rw [List.Perm.nodup_iff (List.Perm.map Msg.id (List.perm_insertionSort msgLE _))]
  exact List.Nodup.sublist (List.Sublist.map Msg.id (List.filter_sublist store)) Hnodup

/-- A reply fetch is sorted by ascending creation timestamp. -/
theorem childrenOf_sorted (store : List Msg) (mid : Nat) :
    List.Sorted msgLE (childrenOf store mid) :=
  List.sorted_insertionSort msgLE _

/-- Fuel bookkeeping: a child of a node with sufficient fuel has sufficient
fuel for the recursive call. -/
theorem children_fuel (store : List Msg)
    (Hpar : ∀ m ∈ store, ∀ p, m.parent = some p → p < m.id)
    {m c : Msg} {f : Nat}
    (hc : c ∈ childrenOf store m.id)
    (hS : maxMsgId store + 1 ≤ f + 1 + m.id) :
    maxMsgId store + 1 ≤ f + c.id ∧ 1 ≤ f := by
  rcases (mem_childrenOf store m.id c).mp hc with ⟨hcs, hcp⟩
  have hlt : m.id < c.id := Hpar c hcs m.id hcp
  have hle : c.id ≤ maxMsgId store := mem_maxMsgId store c hcs
  omega

/-- Ids never decrease along the traversal: everything emitted below a node
has an id at least that of the node. -/
theorem recurseThread_id_le (store : List Msg)
    (Hpar : ∀ m ∈ store, ∀ p, m.parent = some p → p < m.id) :
    ∀ (f : Nat) (m : Msg) (d : Nat) (x : Msg) (dx : Nat),
      (x, dx) ∈ recurseThread store f m d → m.id ≤ x.id := by
  intro f
  induction f with
  | zero => intro m d x dx hx; cases hx
  | succ f ih =>
      intro m d x dx hx
      rw [recurseThread_succ] at hx
      rcases List.mem_cons.mp hx with h | h
      · injection h with h1 h2
        subst h1
        exact le_rfl
      · rcases List.mem_flatMap.mp h with ⟨c, hc, hxc⟩
        rcases (mem_childrenOf store m.id c).mp hc with ⟨hcs, hcp⟩
        exact le_of_lt (lt_of_lt_of_le (Hpar c hcs m.id hcp) (ih c (d + 1) x dx hxc))

/-- Everything the traversal emits below a node is a descendant of that node
along child links. -/
theorem recurseThread_desc (store : List Msg) :
    ∀ (f : Nat) (m : Msg) (d : Nat) (x : Msg) (dx : Nat),
      (x, dx) ∈ recurseThread store f m d → ThreadDesc store m x := by
  intro f
  induction f with
  | zero => intro m d x dx hx; cases hx
  | succ f ih =>
      intro m d x dx hx
      rw [recurseThread_succ] at hx
      rcases List.mem_cons.mp hx with h | h
      · injection h with h1 h2
        subst h1
        exact ThreadDesc.refl _
      · rcases List.mem_flatMap.mp h with ⟨c, hc, hxc⟩
        exact ThreadDesc.step hc (ih c (d + 1) x dx hxc)

/-- Conversely, with sufficient fuel every descendant of the node is
emitted at some depth. -/
theorem desc_mem_recurseThread (store : List Msg)
    (Hpar : ∀ m ∈ store, ∀ p, m.parent = some p → p < m.id)
    {m x : Msg} (h : ThreadDesc store m x) :
    ∀ (f d : Nat), maxMsgId store + 1 ≤ f + m.id → 1 ≤ f →
      ∃ dx, (x, dx) ∈ recurseThread store f m d := by
  induction h with
  | refl m =>
      intro f d hS hf
      obtain ⟨g, rfl⟩ : ∃ g, f = g + 1 := ⟨f - 1, by omega⟩
      exact ⟨d, by rw [recurseThread_succ]; exact List.mem_cons_self _ _⟩
  | @step m c x hc h ih =>
      intro f d hS hf
      obtain ⟨g, rfl⟩ : ∃ g, f = g + 1 := ⟨f - 1, by omega⟩
      have hcf := children_fuel store Hpar hc hS
      rcases ih g (d + 1) hcf.1 hcf.2 with ⟨dx, hdx⟩
      refine ⟨dx, ?_⟩
      rw [recurseThread_succ]
      exact List.mem_cons_of_mem _ (List.mem_flatMap.mpr ⟨c, hc, hdx⟩)

/-- Depth bookkeeping: every emitted pair is the call root at the call
depth, or a child of some emitted pair at depth one more. -/
theorem recurseThread_depth (store : List Msg) :
    ∀ (f : Nat) (m : Msg) (d : Nat) (x : Msg) (dx : Nat),
      (x, dx) ∈ recurseThread store f m d →
      (x = m ∧ dx = d) ∨
        ∃ p dp, (p, dp) ∈ recurseThread store f m d ∧
          x ∈ childrenOf store p.id ∧ dx = dp + 1 := by
  intro f
  induction f with
  | zero => intro m d x dx hx; cases hx
  | succ f ih =>
      intro m d x dx hx
      rw [recurseThread_succ] at hx
      rcases List.mem_cons.mp hx with h | h
      · injection h with h1 h2
        exact Or.inl ⟨h1, h2⟩
      · rcases List.mem_flatMap.mp h with ⟨c, hc, hxc⟩
        rcases ih c (d + 1) x dx hxc with ⟨rfl, rfl⟩ | ⟨p, dp, hp, hxp, rfl⟩
        · refine Or.inr ⟨m, d, ?_, hc, rfl⟩
          rw [recurseThread_succ]
          exact List.mem_cons_self _ _
        · refine Or.inr ⟨p, dp, ?_, hxp, rfl⟩
          rw [recurseThread_succ]
          exact List.mem_cons_of_mem _ (List.mem_flatMap.mpr ⟨c, hc, hp⟩)

/-- With at least one unit of fuel the first emitted pair is the root at
its call depth. -/
theorem recurseThread_head (store : List Msg) (f : Nat) (m : Msg) (d : Nat)
    (hf : 1 ≤ f) :
    (recurseThread store f m d).head? = some (m, d) := by
  obtain ⟨g, rfl⟩ : ∃ g, f = g + 1 := ⟨f - 1, by omega⟩
  rw [recurseThread_succ]
  rfl

/-- Descendant ids are at least the ancestor id. -/
theorem threadDesc_id_le (store : List Msg)
    (Hpar : ∀ m ∈ store, ∀ p, m.parent = some p → p < m.id)
    {m x : Msg} (h : ThreadDesc store m x) : m.id ≤ x.id := by
  induction h with
  | refl m => exact le_rfl
  | @step m c x hc h ih =>
      rcases (mem_childrenOf store m.id c).mp hc with ⟨hcs, hcp⟩
      exact le_of_lt (lt_of_lt_of_le (Hpar c hcs m.id hcp) ih)

/-- A descendant is the ancestor itself or a fetched child of an
intermediate descendant. -/
theorem threadDesc_decompose (store : List Msg) {m x : Msg}
    (h : ThreadDesc store m x) :
    x = m ∨ ∃ y, ThreadDesc store m y ∧ x ∈ childrenOf store y.id := by
  induction h with
  | refl m => exact Or.inl rfl
  | @step m c x hc h ih =>
      rcases ih with rfl | ⟨y, hy, hxy⟩
      · exact Or.inr ⟨m, ThreadDesc.refl m, hc⟩
      · exact Or.inr ⟨y, ThreadDesc.step hc hy, hxy⟩

/-- Descendants are the ancestor itself or store members. -/
theorem threadDesc_mem_store (store : List Msg) {m x : Msg}
    (h : ThreadDesc store m x) :
    x = m ∨ x ∈ store := by
  induction h with
  | refl m => exact Or.inl rfl
  | @step m c x hc h ih =>
      rcases ih with rfl | hx
      · exact Or.inr ((mem_childrenOf store _ _).mp hc).1
      · exact Or.inr hx

/-- Parent pointers are functional, so the subtrees of two distinct
children of one node share no message: no message is a descendant of
both. -/
theorem threadDesc_unique_path (store : List Msg)
    (Hpar : ∀ m ∈ store, ∀ p, m.parent = some p → p < m.id)
    (Hnodup : (store.map Msg.id).Nodup) :
    ∀ (n : Nat) (x : Msg), x.id = n →
      ∀ (mid : Nat) (c1 c2 : Msg),
        c1 ∈ store → c1.parent = some mid →
        c2 ∈ store → c2.parent = some mid →
        c1.id ≠ c2.id →
        ThreadDesc store c1 x → ThreadDesc store c2 x → False := by
  intro n
  induction n using Nat.strong_induction_on with
  | _ n ih =>
      intro x hxn mid c1 c2 hc1s hc1p hc2s hc2p hne h1 h2
      rcases threadDesc_decompose store h1 with rfl | ⟨y1, hy1, hxy1⟩
      · rcases threadDesc_decompose store h2 with rfl | ⟨y2, hy2, hxy2⟩
        · exact hne rfl
        · rcases (mem_childrenOf store y2.id x).mp hxy2 with ⟨hxs, hxp⟩
          have hy2id : y2.id = mid := by
            rw [hc1p] at hxp
            exact (Option.some.inj hxp).symm
          have hle : c2.id ≤ y2.id := threadDesc_id_le store Hpar hy2
          have hlt : mid < c2.id := Hpar c2 hc2s mid hc2p
          omega
      · rcases threadDesc_decompose store h2 with rfl | ⟨y2, hy2, hxy2⟩
        · rcases (mem_childrenOf store y1.id x).mp hxy1 with ⟨hxs, hxp⟩
          have hy1id : y1.id = mid := by
            rw [hc2p] at hxp
            exact (Option.some.inj hxp).symm
          have hle : c1.id ≤ y1.id := threadDesc_id_le store Hpar hy1
          have hlt : mid < c1.id := Hpar c1 hc1s mid hc1p
          omega
        · rcases (mem_childrenOf store y1.id x).mp hxy1 with ⟨hxs, hxp1⟩
          rcases (mem_childrenOf store y2.id x).mp hxy2 with ⟨_, hxp2⟩
          have hy12 : y1.id = y2.id := by
            rw [hxp1] at hxp2
            exact Option.some.inj hxp2
          have hy1s : y1 ∈ store := by
            rcases threadDesc_mem_store store hy1 with rfl | h
            · exact hc1s
            · exact h
          have hy2s : y2 ∈ store := by
            rcases threadDesc_mem_store store hy2 with rfl | h
            · exact hc2s
            · exact h
          have hyy : y1 = y2 := List.inj_on_of_nodup_map Hnodup hy1s hy2s hy12
          subst hyy
          have hlt : y1.id < x.id := Hpar x hxs y1.id hxp1
          exact ih y1.id (by omega) y1 rfl mid c1 c2 hc1s hc1p hc2s hc2p hne hy1 hy2

/-- The traversal never emits two pairs with the same message id. -/
theorem recurseThread_nodup (store : List Msg)
    (Hpar : ∀ m ∈ store, ∀ p, m.parent = some p → p < m.id)
    (Hnodup : (store.map Msg.id).Nodup) :
    ∀ (f : Nat) (m : Msg) (d : Nat),
      ((recurseThread store f m d).map (fun p => p.1.id)).Nodup := by
  intro f
  induction f with
  | zero =>
      intro m d
      exact List.nodup_nil
  | succ f ih =>
      intro m d
      rw [recurseThread_succ, List.map_cons]
      refine List.nodup_cons.mpr ⟨?_, ?_⟩
      · intro hmem
        rw [List.map_flatMap] at hmem
        rcases List.mem_flatMap.mp hmem with ⟨c, hc, hmc⟩
        rcases List.mem_map.mp hmc with ⟨⟨x, dx⟩, hx, hxid⟩
        have h1 := recurseThread_id_le store Hpar f c (d + 1) x dx hx
        rcases (mem_childrenOf store m.id c).mp hc with ⟨hcs, hcp⟩
        have h2 := Hpar c hcs m.id hcp
        simp only at hxid
        omega
      · rw [List.map_flatMap, List.nodup_flatMap]
        refine ⟨fun c _ => ih c (d + 1), ?_⟩
        have hcn : ((childrenOf store m.id).map Msg.id).Nodup :=
          childrenOf_nodup store Hnodup m.id
        have hpw : List.Pairwise (fun a b : Msg => a.id ≠ b.id) (childrenOf store m.id) :=
          List.pairwise_map.mp hcn
        refine List.Pairwise.imp_of_mem ?_ hpw
        intro c1 c2 hm1 hm2 hne i hi1 hi2
        rcases List.mem_map.mp hi1 with ⟨⟨x1, dx1⟩, hx1, hx1id⟩
        rcases List.mem_map.mp hi2 with ⟨⟨x2, dx2⟩, hx2, hx2id⟩
        have hd1 := recurseThread_desc store f c1 (d + 1) x1 dx1 hx1
        have hd2 := recurseThread_desc store f c2 (d + 1) x2 dx2 hx2
        rcases (mem_childrenOf store m.id c1).mp hm1 with ⟨hc1s, hc1p⟩
        rcases (mem_childrenOf store m.id c2).mp hm2 with ⟨hc2s, hc2p⟩
        have hx1s : x1 ∈ store := by
          rcases threadDesc_mem_store store hd1 with rfl | h
          · exact hc1s
          · exact h
        have hx2s : x2 ∈ store := by
          rcases threadDesc_mem_store store hd2 with rfl | h
          · exact hc2s
          · exact h
        simp only at hx1id hx2id
        have hxx : x1 = x2 :=
          List.inj_on_of_nodup_map Hnodup hx1s hx2s (by rw [hx1id, hx2id])
        subst hxx
        exact threadDesc_unique_path store Hpar Hnodup x1.id x1 rfl m.id c1 c2
          hc1s hc1p hc2s hc2p hne hd1 hd2

/-- Bridge from the executable store invariant to its logical form. -/
theorem parentsPrecede_of_bool (store : List Msg) (h : parentsPrecedeB store = true) :
    ∀ m ∈ store, ∀ p, m.parent = some p → p < m.id := by
  intro m hm p hp
  have hb := List.all_eq_true.mp h m hm
  rw [hp] at hb
  exact of_decide_eq_true hb

/-- C2: on the scenario store (root R with replies A at 1 and B at 2, and C
at 3/2 under A) the resolver returns exactly [(R,0), (A,1), (C,2), (B,1)];
in general, over any store with distinct ids satisfying the
parent-precedes-child invariant, the traversal starts with the root at
depth 0, emits a message iff it is reachable from the root along child
links, emits no message id twice, gives every non-root entry a parent entry
whose depth is one less, and visits the children of every node in ascending
creation-timestamp order. -/
theorem c2_get_threaded_replies_preorder (store : List Msg) (root : Msg)
    (Hpar : ∀ m ∈ store, ∀ p, m.parent = some p → p < m.id)
    (Hnodup : (store.map Msg.id).Nodup) :
    get_threaded_replies exStore exR = [(exR, 0), (exA, 1), (exC, 2), (exB, 1)]
    ∧ (get_threaded_replies store root).head? = some (root, 0)
    ∧ (∀ x : Msg,
        (∃ dx, (x, dx) ∈ get_threaded_replies store root) ↔ ThreadDesc store root x)
    ∧ ((get_threaded_replies store root).map (fun p => p.1.id)).Nodup
    ∧ (∀ x dx, (x, dx) ∈ get_threaded_replies store root →
        (x = root ∧ dx = 0) ∨
          ∃ p dp, (p, dp) ∈ get_threaded_replies store root ∧
            x ∈ childrenOf store p.id ∧ dx = dp + 1)
    ∧ (∀ mid, List.Sorted msgLE (childrenOf store mid)) := by
  refine ⟨by decide, recurseThread_head store _ root 0 (by omega), ?_,
    recurseThread_nodup store Hpar Hnodup _ root 0,
    fun x dx hx => recurseThread_depth store _ root 0 x dx hx,
    fun mid => childrenOf_sorted store mid⟩
  intro x
  constructor
  · rintro ⟨dx, hdx⟩
    exact recurseThread_desc store _ root 0 x dx hdx
  · intro h
    exact desc_mem_recurseThread store Hpar h (maxMsgId store + 1) 0 (by omega) (by omega)

/-- Witness for C2 at the scenario store. -/
theorem c2_witness :
    get_threaded_replies exStore exR = [(exR, 0), (exA, 1), (exC, 2), (exB, 1)] :=
  (c2_get_threaded_replies_preorder exStore exR
    (parentsPrecede_of_bool exStore (by decide)) (by decide)).1

/-- The reply fetch of message 1 in the corrupted store is message 2. -/
theorem childrenOf_cyc1 : childrenOf cycStore 1 = [cycM2] := by decide

/-- The reply fetch of message 2 in the corrupted store is message 1. -/
theorem childrenOf_cyc2 : childrenOf cycStore 2 = [cycM1] := by decide

/-- On the corrupted two-cycle the traversal from either message consumes
every unit of fuel: its output length equals the fuel, for all fuel. -/
theorem recurseThread_cyc_length (f : Nat) : ∀ (d : Nat),
    (recurseThread cycStore f cycM1 d).length = f
    ∧ (recurseThread cycStore f cycM2 d).length = f := by
  induction f with
  | zero => intro d; exact ⟨rfl, rfl⟩
  | succ f ih =>
      intro d
      constructor
      · rw [recurseThread_succ, show cycM1.id = 1 from rfl, childrenOf_cyc1]
        simp [(ih (d + 1)).2]
      · rw [recurseThread_succ, show cycM2.id = 2 from rfl, childrenOf_cyc2]
        simp [(ih (d + 1)).1]

/-- C3: the resolver has no visited-set and no cycle failure: on a store
corrupted with a parent-pointer two-cycle its output is truncated only by
fuel (length equals fuel for every fuel, so the source recursion, which has
no fuel, never returns), and the first four emitted ids are 1, 2, 1, 2: the
already-visited messages are re-emitted rather than rejected, and no
CorruptThread-style failure outcome exists in the code. -/
theorem c3_resolver_no_cycle_guard :
    (∀ f d, (recurseThread cycStore f cycM1 d).length = f)
    ∧ (recurseThread cycStore 4 cycM1 0).map (fun p => p.1.id) = [1, 2, 1, 2] :=
  ⟨fun f d => (recurseThread_cyc_length f d).1, by decide⟩

end Alx
